import Mathlib

/-!
Verification of the fragmentation-minimizing allocator in `src/mm.c`.

The heap is modelled as a total word-granular memory `mem : Nat → Nat` over
byte addresses (every word access in the program is 8-aligned, and `mem a`
holds the 8-byte little-endian word stored at the 8-aligned address `a`),
together with the heap bounds `lo` (first byte) and `hiP` (one past the last
byte, i.e. `mem_heap_hi() + 1`).  The state carries sticky instrumentation
flags: `oobR` / `oobW` record that some read / write touched memory outside
`[lo, hiP)`, `uninit` records that an uninitialized value (or the missing
return value of a function falling off its end) was consumed, and `fuelOut`
records that a loop was cut short by fuel exhaustion (an artifact of the
embedding; all theorems supply enough fuel).  Pointer values are plain `Nat`s,
`0` plays the role of `NULL` and `2^64 - 1` the role of `(void * ) - 1`.
C arithmetic on `size_t` / pointers is mirrored with explicit `% 2^64`
reductions where the C program can wrap, and narrowing `size_t → int`
conversions (the `mem_sbrk` argument and two comparisons in the source) are
made explicit through `toInt32`.
-/

namespace MM

/-- `(void * ) - 1`, the failure sentinel of `mem_sbrk`, as a 64-bit word. -/
def SENTINEL : Nat := 2 ^ 64 - 1

/-- `ALIGN(size) = ((size + 7) & ~0x7)` on a 64-bit `size_t`. -/
def alignUp64 (x : Nat) : Nat := (x + 7) % 2 ^ 64 / 8 * 8

/-- The C conversion of a 64-bit unsigned value to a (32-bit) `int`. -/
def toInt32 (v : Nat) : Int :=
  if v % 2 ^ 32 < 2 ^ 31 then ((v % 2 ^ 32 : Nat) : Int)
  else ((v % 2 ^ 32 : Nat) : Int) - 2 ^ 32

/-- The C conversion of an `int` back to a 64-bit `size_t` (used where the
source compares an `int` expression against a `size_t` one). -/
def i2u64 (i : Int) : Nat := (i % 2 ^ 64).toNat

/-- `BLOCK_HEADER` position code. -/
def B_HEADER : Nat := 0

/-- `BLOCK_END` position code. -/
def B_END : Nat := 2

/-- `BLOCK_PAYLOAD` position code (same value as `BLOCK_FORWARD`). -/
def B_PAYLOAD : Nat := 3

/-- `BLOCK_FORWARD` position code. -/
def B_FORWARD : Nat := 3

/-- `BLOCK_BACKWARD` position code. -/
def B_BACKWARD : Nat := 4

/-- `moved_pointer` from `mm.c`: travel between positions of a block.
`SIZE_T_SIZE = sizeof(void * ) = 8`. -/
def moved_pointer (point_in blocklen position_point position_wanted : Nat) : Nat :=
  let point :=
    if position_point = B_END then point_in - blocklen
    else if position_point = B_FORWARD then point_in - 8
    else if position_point = B_BACKWARD then point_in - 8 - 8
    else point_in
  if position_wanted = B_HEADER then point
  else if position_wanted = B_END then point + blocklen
  else if position_wanted = B_FORWARD then point + 8
  else point + 8 + 8

/-- The machine state: word memory, heap bounds, backing capacity and
instrumentation flags. -/
@[ext] structure Heap where
  mem : Nat → Nat
  lo : Nat
  hiP : Nat
  cap : Nat
  oobR : Bool := false
  oobW : Bool := false
  uninit : Bool := false
  fuelOut : Bool := false

/-- A word at address `a` lies inside the current heap `[lo, hiP)`. -/
def inB (h : Heap) (a : Nat) : Bool := decide (h.lo ≤ a ∧ a + 8 ≤ h.hiP)

/-- Read the word at address `a`, flagging out-of-heap reads. -/
def rd (h : Heap) (a : Nat) : Nat × Heap :=
  (h.mem a, { h with oobR := h.oobR || !(inB h a) })

/-- Write the word `v` at address `a`, flagging out-of-heap writes. -/
def wr (h : Heap) (a v : Nat) : Heap :=
  { h with mem := fun x => if x = a then v else h.mem x,
           oobW := h.oobW || !(inB h a) }

/-- Modelled from the spec: the external backing allocator (`memlib`, not part
of `src/`).  `sbrk(delta)` extends the high end by `delta` bytes and returns a
pointer to the first newly added byte, or the failure sentinel when `delta` is
negative or the backing allocator refuses the growth (here: when the heap
would exceed the fixed capacity `cap`). -/
def sbrkH (h : Heap) (incr : Int) : Nat × Heap :=
  if incr < 0 ∨ ((h.hiP - h.lo : Nat) : Int) + incr > (h.cap : Int) then (SENTINEL, h)
  else (h.hiP, { h with hiP := h.hiP + incr.toNat })

/-- Byte number `j` (little-endian) of the buffer starting at the 8-aligned
address `base` in memory `m`. -/
def byteAt (m : Nat → Nat) (base j : Nat) : Nat :=
  m (base + j / 8 * 8) / 256 ^ (j % 8) % 256

/-- The memory after `memcpy(dst, src, n)` for 8-aligned `dst` and `src`:
`n / 8` full words are copied and, if `n % 8 ≠ 0`, the low `n % 8` bytes of
one further word. -/
def memcpyMem (m : Nat → Nat) (dst src n : Nat) : Nat → Nat := fun a =>
  if dst ≤ a ∧ a < dst + n / 8 * 8 ∧ (a - dst) % 8 = 0 then m (src + (a - dst))
  else if n % 8 ≠ 0 ∧ a = dst + n / 8 * 8 then
    m (src + n / 8 * 8) % 256 ^ (n % 8) + m a / 256 ^ (n % 8) * 256 ^ (n % 8)
  else m a

/-- `memcpy(dst, src, n)` on the heap state, flagging out-of-heap accesses. -/
def memcpyH (h : Heap) (dst src n : Nat) : Heap :=
  { h with mem := memcpyMem h.mem dst src n,
           oobR := h.oobR || !(decide (n = 0 ∨ (h.lo ≤ src ∧ src + n ≤ h.hiP))),
           oobW := h.oobW || !(decide (n = 0 ∨ (h.lo ≤ dst ∧ dst + n ≤ h.hiP))) }

/-- `mm_init` from `mm.c`: nothing to do, returns 0. -/
def mm_init : Nat := 0

/-- The best-fit scan loop of `mm_malloc` (`while (1) { ... }`), walking the
forward links.  Returns the state (reads may set flags), the final cursor
(the last visited forward slot), the last value of `size_act`, and the best
candidate pair `best_p`, `best_s`. -/
def mallocScan : Nat → Heap → Nat → Nat → Nat → Nat → Heap × Nat × Nat × Nat × Nat
  | 0, h, cur, _, bp, bs => ({ h with fuelOut := true }, cur, 0, bp, bs)
  | fuel + 1, h, cur, newsize, bp, bs =>
    let (sa, h) := rd h (moved_pointer cur 0 B_FORWARD B_HEADER)
    if sa > newsize ∧ sa < bs then
      let (nxt, h) := rd h cur
      if nxt = 0 then (h, cur, sa, cur, sa)
      else mallocScan fuel h nxt newsize cur sa
    else if sa = newsize then (h, cur, sa, cur, sa)
    else
      let (nxt, h) := rd h cur
      if nxt = 0 then (h, cur, sa, bp, bs)
      else mallocScan fuel h nxt newsize bp bs

/-- The first-call branch of `mm_malloc`: prime the heap, reserving one
pointer for the list head, adjust for alignment and emit the first block. -/
def mallocFirstCall (h : Heap) (newsize : Nat) : Nat × Heap :=
  let (r, h) := sbrkH h (toInt32 ((newsize + 8) % 2 ^ 64))
  let p := (r + 8) % 2 ^ 64
  let (p, h) :=
    if alignUp64 p ≠ p then
      let (_, h) := sbrkH h (toInt32 ((alignUp64 p + 2 ^ 64 - p) % 2 ^ 64))
      (alignUp64 p, h)
    else (p, h)
  let h := wr h h.lo 0
  if p = SENTINEL then (0, h)
  else
    let h := wr h p (newsize + 1)
    (moved_pointer p newsize B_HEADER B_PAYLOAD, h)

/-- The `best_p == NULL` branch of `mm_malloc`: either the last free block is
the heap tail (extend by just the right amount and detach it) or plainly
extend the heap; then place the header and return the payload. -/
def mallocNoFit (h : Heap) (cur sa newsize : Nat) : Nat × Heap :=
  let (p, h) :=
    if moved_pointer cur sa B_FORWARD B_END = h.hiP then
      let (_, h) := sbrkH h (toInt32 ((newsize + 2 ^ 64 - sa) % 2 ^ 64))
      let (bv, h) := rd h (moved_pointer cur 0 B_FORWARD B_BACKWARD)
      let h :=
        if bv ≠ 0 then
          let (bv2, h) := rd h (moved_pointer cur 0 B_FORWARD B_BACKWARD)
          wr h (moved_pointer bv2 0 B_BACKWARD B_FORWARD) 0
        else wr h h.lo 0
      (moved_pointer cur 0 B_FORWARD B_HEADER, h)
    else sbrkH h (toInt32 (newsize % 2 ^ 64))
  if p = SENTINEL then (0, h)
  else
    let h := wr h p (newsize + 1)
    (moved_pointer p newsize B_HEADER B_PAYLOAD, h)

/-- The fit-found branch of `mm_malloc`: split the free block when at least a
minimal block would remain (the low end stays free, only its header changes),
otherwise consume it whole and excise it from the free list; then place the
allocated header. -/
def mallocFit (h : Heap) (bestP bestS newsize : Nat) : Nat × Heap :=
  let (bestP, newsize, h) :=
    if bestS - newsize ≥ 24 then
      let h := wr h (moved_pointer bestP newsize B_FORWARD B_HEADER) (bestS - newsize)
      (bestP + (bestS - newsize), newsize, h)
    else
      let newsize := bestS
      let (bwd, h) := rd h (moved_pointer bestP newsize B_FORWARD B_BACKWARD)
      let h :=
        if bwd ≠ 0 then
          let (bwd2, h) := rd h (moved_pointer bestP newsize B_FORWARD B_BACKWARD)
          let (fwdv, h) := rd h bestP
          wr h (moved_pointer bwd2 0 B_BACKWARD B_FORWARD) fwdv
        else
          let (fwdv, h) := rd h bestP
          wr h h.lo fwdv
      let (fwdv2, h) := rd h bestP
      let h :=
        if fwdv2 ≠ 0 then
          let (fv3, h) := rd h bestP
          let (bk, h) := rd h (moved_pointer bestP newsize B_FORWARD B_BACKWARD)
          wr h (moved_pointer fv3 0 B_FORWARD B_BACKWARD) bk
        else h
      (bestP, newsize, h)
  let h := wr h (moved_pointer bestP newsize B_FORWARD B_HEADER) (newsize + 1)
  (bestP, h)

/-- `mm_malloc` from `mm.c`.  `junk` is the unspecified value read from the
uninitialized local `size_act` when the free-list scan never ran (consuming
it sets the `uninit` flag); `fuel` bounds the scan loop.  Returns the payload
pointer (`0` for `NULL`) and the new state. -/
def mm_malloc (h : Heap) (size junk fuel : Nat) : Nat × Heap :=
  -- if ((int)size < 2*sizeof(void * )) size = 2*sizeof(void * );
  let size := if size % 2 ^ 32 < 16 then 16 else size
  let newsize := alignUp64 ((size + 8) % 2 ^ 64)
  if h.hiP - h.lo = 0 then mallocFirstCall h newsize
  else
    let current_pos := h.lo
    let (headv, h) := rd h current_pos
    let (h, cur, sizeAct, bestP, bestS) :=
      if headv ≠ 0 then
        let (h, cur, sa, bp, bs) := mallocScan fuel h headv newsize 0 (2 ^ 32 - 1)
        (h, cur, some sa, bp, bs)
      else (h, current_pos, (none : Option Nat), 0, 2 ^ 32 - 1)
    if bestP = 0 then
      -- the uninitialized local size_act is consumed when the scan never ran
      let (sa, h) :=
        match sizeAct with
        | some v => (v, h)
        | none => (junk, { h with uninit := true })
      mallocNoFit h cur sa newsize
    else mallocFit h bestP bestS newsize

/-- Coalescing with the physically following block `after`, shared by the
head-insertion and mid-insertion paths of `mm_free` (two identical code
blocks in the source). -/
def coalesceAfter (h : Heap) (ptr after : Nat) : Heap :=
  let (szp, h) := rd h (moved_pointer ptr 0 B_FORWARD B_HEADER)
  if moved_pointer after 0 B_FORWARD B_HEADER = moved_pointer ptr szp B_FORWARD B_END then
    let (s1, h) := rd h (moved_pointer ptr 0 B_FORWARD B_HEADER)
    let (s2, h) := rd h (moved_pointer after 0 B_FORWARD B_HEADER)
    let h := wr h (moved_pointer ptr 0 B_FORWARD B_HEADER) (s1 + s2)
    let (av, h) := rd h after
    let h := wr h ptr av
    let (pv, h) := rd h ptr
    if pv ≠ 0 then
      wr h (moved_pointer pv 0 B_FORWARD B_BACKWARD) (moved_pointer ptr 0 B_FORWARD B_BACKWARD)
    else h
  else h

/-- Coalescing with the preceding list element `bb` inside the insertion walk
of `mm_free`; returns the (possibly re-identified) `ptr`. -/
def coalesceBefore (h : Heap) (ptr bb after : Nat) : Nat × Heap :=
  let (szb, h) := rd h (moved_pointer bb 0 B_FORWARD B_HEADER)
  if moved_pointer ptr 0 B_FORWARD B_HEADER = moved_pointer bb szb B_FORWARD B_END then
    let (s1, h) := rd h (moved_pointer bb 0 B_FORWARD B_HEADER)
    let (s2, h) := rd h (moved_pointer ptr 0 B_FORWARD B_HEADER)
    let h := wr h (moved_pointer bb 0 B_FORWARD B_HEADER) (s1 + s2)
    let h := wr h bb after
    let h := wr h (moved_pointer after 0 B_FORWARD B_BACKWARD)
                  (moved_pointer bb 0 B_FORWARD B_BACKWARD)
    (bb, h)
  else (ptr, h)

/-- The head-insertion branch of `mm_free` (the first list element lies after
`ptr`): link `ptr` at the front and coalesce with `after` if adjacent. -/
def freeHeadInsert (h : Heap) (ptr after : Nat) : Heap :=
  let h := wr h h.lo ptr
  let h := wr h (moved_pointer after 0 B_FORWARD B_BACKWARD)
                (moved_pointer ptr 0 B_FORWARD B_BACKWARD)
  let h := wr h ptr after
  let h := wr h (moved_pointer ptr 0 B_FORWARD B_BACKWARD) 0
  coalesceAfter h ptr after

/-- The end-of-list branch of `mm_free` for a non-empty list: append `ptr`
after the last element `bb`, coalescing with it when adjacent. -/
def freeAppendEnd (h : Heap) (bb ptr : Nat) : Heap :=
  let (szb, h) := rd h (moved_pointer bb 0 B_FORWARD B_HEADER)
  let (ptr, h) :=
    if moved_pointer ptr 0 B_FORWARD B_HEADER = moved_pointer bb szb B_FORWARD B_END then
      let (s1, h) := rd h (moved_pointer bb 0 B_FORWARD B_HEADER)
      let (s2, h) := rd h (moved_pointer ptr 0 B_FORWARD B_HEADER)
      let h := wr h (moved_pointer bb 0 B_FORWARD B_HEADER) (s1 + s2)
      let h := wr h bb 0
      (bb, h)
    else
      let h := wr h bb ptr
      let h := wr h (moved_pointer ptr 0 B_FORWARD B_BACKWARD)
                    (moved_pointer bb 0 B_FORWARD B_BACKWARD)
      (ptr, h)
  wr h ptr 0

/-- The empty-list branch of `mm_free`: `ptr` becomes the sole list element. -/
def freeEmptyInsert (h : Heap) (ptr : Nat) : Heap :=
  let h := wr h h.lo ptr
  let h := wr h (moved_pointer ptr 0 B_FORWARD B_BACKWARD) 0
  wr h ptr 0

/-- The mid-insertion block of `mm_free`'s walk: link `ptr` between `bb` and
`after` (four link writes), then coalesce with the block before and the block
after when adjacent. -/
def freeInsertAt (h : Heap) (ptr bb after : Nat) : Heap :=
  let h := wr h bb ptr
  let h := wr h (moved_pointer after 0 B_FORWARD B_BACKWARD)
                (moved_pointer ptr 0 B_FORWARD B_BACKWARD)
  let h := wr h ptr after
  let h := wr h (moved_pointer ptr 0 B_FORWARD B_BACKWARD)
                (moved_pointer bb 0 B_FORWARD B_BACKWARD)
  let (ptr, h) := coalesceBefore h ptr bb after
  coalesceAfter h ptr after

/-- The insertion walk of `mm_free` (`while (*before_block != NULL)`).
Returns the final state paired with `none` when the function returned from
inside the loop, or `some before_block` when the loop fell through with the
last list element. -/
def freeWalk : Nat → Heap → Nat → Nat → Heap × Option Nat
  | 0, h, bb, _ => ({ h with fuelOut := true }, some bb)
  | fuel + 1, h, bb, ptr =>
    let (nb, h) := rd h bb
    if nb = 0 then (h, some bb)
    else if nb > ptr then (freeInsertAt h ptr bb nb, none)
    else freeWalk fuel h nb ptr

/-- `mm_free` from `mm.c`: clear the allocation flag, insert the block into
the address-ordered free list and coalesce with both physical neighbours when
possible. -/
def mm_free (h : Heap) (ptr0 fuel : Nat) : Heap :=
  let (hv, h) := rd h (moved_pointer ptr0 0 B_FORWARD B_HEADER)
  let free_size := hv / 2 * 2
  let h := wr h (moved_pointer ptr0 free_size B_FORWARD B_HEADER) free_size
  let (bv, h) := rd h h.lo
  if bv ≠ 0 then
    if bv > ptr0 then freeHeadInsert h ptr0 bv
    else
      match freeWalk fuel h bv ptr0 with
      | (h, none) => h
      | (h, some bb) => freeAppendEnd h bb ptr0
  else freeEmptyInsert h ptr0

/-- The in-place growth branch of `mm_realloc` in which the free successor is
large enough to leave a new, shifted free block behind. -/
def reallocSplitNext (h : Heap)
    (ptr asked_block_size current_size next_block_header next_block_size : Nat) : Nat × Heap :=
  let (next_forward, h) :=
    rd h (moved_pointer next_block_header next_block_size B_HEADER B_FORWARD)
  let (next_backward, h) :=
    rd h (moved_pointer next_block_header next_block_size B_HEADER B_BACKWARD)
  let h := wr h (moved_pointer ptr 0 B_PAYLOAD B_HEADER) (asked_block_size + 1)
  let new_free_block_head := moved_pointer ptr asked_block_size B_PAYLOAD B_END
  let new_free_block := moved_pointer new_free_block_head 0 B_HEADER B_FORWARD
  let new_free_block_backward := moved_pointer new_free_block_head 0 B_HEADER B_BACKWARD
  let new_free_size := next_block_size - (asked_block_size - current_size)
  let h := wr h new_free_block_head new_free_size
  let h := wr h (moved_pointer new_free_block_head new_free_size B_HEADER B_FORWARD) next_forward
  let h := wr h (moved_pointer new_free_block_head new_free_size B_HEADER B_BACKWARD) next_backward
  let h :=
    if next_forward ≠ 0 then
      let (nfs, h) := rd h (moved_pointer next_forward 0 B_FORWARD B_HEADER)
      wr h (moved_pointer next_forward nfs B_FORWARD B_BACKWARD) new_free_block_backward
    else h
  let h :=
    if next_backward ≠ 0 then
      wr h (moved_pointer next_backward 0 B_BACKWARD B_FORWARD) new_free_block
    else wr h h.lo new_free_block
  (ptr, h)

/-- The in-place growth branch of `mm_realloc` in which the whole free
successor is absorbed into the allocated block. -/
def reallocAbsorbNext (h : Heap)
    (ptr current_size next_block_header next_block_size : Nat) : Nat × Heap :=
  let (next_forward, h) :=
    rd h (moved_pointer next_block_header next_block_size B_HEADER B_FORWARD)
  let (next_backward, h) :=
    rd h (moved_pointer next_block_header next_block_size B_HEADER B_BACKWARD)
  let h := wr h (moved_pointer ptr 0 B_PAYLOAD B_HEADER) (current_size + next_block_size + 1)
  let h :=
    if next_forward ≠ 0 then
      wr h (moved_pointer next_forward 0 B_FORWARD B_BACKWARD) next_backward
    else h
  let h :=
    if next_backward ≠ 0 then
      wr h (moved_pointer next_backward 0 B_BACKWARD B_FORWARD) next_forward
    else wr h h.lo 0
  (ptr, h)

/-- The final part of `mm_realloc` when in-place growth is impossible: extend
the heap if `ptr` is the last block, otherwise fall back to
`malloc` + `memcpy` + `free`. -/
def reallocRest (h : Heap)
    (ptr asked junk fuel asked_block_size current_size next_block_header : Nat) : Nat × Heap :=
  if next_block_header = h.hiP then
    let (_, h) := sbrkH h (toInt32 ((asked_block_size - current_size) % 2 ^ 64))
    let h := wr h (moved_pointer ptr 0 B_PAYLOAD B_HEADER) (asked_block_size + 1)
    (ptr, h)
  else
    let oldptr := ptr
    let (newptr, h) := mm_malloc h asked junk fuel
    if newptr = 0 then (0, h)
    else
      let (copySize, h) := rd h oldptr
      let _copySize := if asked < copySize then asked else copySize
      let h := memcpyH h newptr oldptr asked
      let h := mm_free h oldptr fuel
      (newptr, h)

/-- `mm_realloc` from `mm.c`.  `junk` and `fuel` are passed through to the
inner `mm_malloc` / `mm_free` calls.  Returns the payload pointer (`0` for
`NULL`) and the new state. -/
def mm_realloc (h : Heap) (ptr asked junk fuel : Nat) : Nat × Heap :=
  if ptr = 0 then mm_malloc h asked junk fuel
  else if asked = 0 then
    let h := mm_free h ptr fuel
    (ptr, h)
  else
    let asked_block_size := alignUp64 ((asked + 8) % 2 ^ 64)
    let (hv, h) := rd h (moved_pointer ptr 0 B_PAYLOAD B_HEADER)
    let current_size := (hv + (2 ^ 64 - 1)) % 2 ^ 64
    if asked_block_size ≤ current_size then (ptr, h)
    else
      -- the next block's header word is read before the heap-end test
      let next_block_header := moved_pointer ptr current_size B_PAYLOAD B_END
      let (next_block_size, h) := rd h next_block_header
      if current_size < asked_block_size ∧ next_block_header ≠ h.hiP ∧
          next_block_size % 2 = 0 then
        if asked_block_size - current_size ≤ next_block_size then
          if 24 ≤ i2u64 (toInt32 (next_block_size - (asked_block_size - current_size))) then
            reallocSplitNext h ptr asked_block_size current_size next_block_header
              next_block_size
          else reallocAbsorbNext h ptr current_size next_block_header next_block_size
        else reallocRest h ptr asked junk fuel asked_block_size current_size next_block_header
      else reallocRest h ptr asked junk fuel asked_block_size current_size next_block_header

/-- The checking loop of `free_list_debug` (verbose = 0, prints elided).
Arguments: fuel, state, `pos`, `prevpos`, `prevsize`. -/
def fldLoop : Nat → Heap → Nat → Nat → Nat → Heap × Nat
  | 0, h, _, _, _ => ({ h with fuelOut := true }, 0)
  | fuel + 1, h, pos, prevpos, prevsize =>
    if pos = 0 then (h, 1)
    else
      let (size, h) := rd h (moved_pointer pos 0 B_FORWARD B_HEADER)
      let (bk, h) :=
        if prevpos ≠ 0 then rd h (moved_pointer pos 0 B_FORWARD B_BACKWARD) else (0, h)
      if prevpos ≠ 0 ∧ bk ≠ moved_pointer prevpos 0 B_FORWARD B_BACKWARD then (h, 0)
      else if size % 2 = 1 then (h, 0)
      else if pos ≤ prevpos then (h, 0)
      else if prevpos ≠ 0 ∧
          moved_pointer prevpos prevsize B_FORWARD B_END =
            moved_pointer pos 0 B_FORWARD B_HEADER then (h, 0)
      else
        let (nxt, h) := rd h pos
        fldLoop fuel h nxt pos size

/-- `free_list_debug(0)` from `mm.c`.  On a null head or a one-element list
the C function executes a plain `return;` inside an `int` function; the value
the caller then observes is unspecified and is modelled by `junk` (with the
`uninit` flag set). -/
def free_list_debug (h : Heap) (junk fuel : Nat) : Heap × Nat :=
  let (pos, h) := rd h h.lo
  if pos = 0 then ({ h with uninit := true }, junk)
  else
    let (pv, h) := rd h pos
    if pv = 0 then ({ h with uninit := true }, junk)
    else fldLoop fuel h pos 0 0

/-- The block walk of `print_heap_blocks` (verbose = 0).
Arguments: fuel, state, `pos`, `next_free_block`. -/
def phbLoop : Nat → Heap → Nat → Nat → Heap × Nat
  | 0, h, _, _ => ({ h with fuelOut := true }, 0)
  | fuel + 1, h, pos, nfb =>
    if pos = h.hiP then (h, 1)
    else
      let (cs, h) := rd h pos
      if cs % 2 = 1 then phbLoop fuel h (moved_pointer pos (cs / 2 * 2) B_HEADER B_END) nfb
      else
        if nfb ≠ moved_pointer pos 0 B_HEADER B_FORWARD then (h, 0)
        else
          let (nfb2, h) := rd h (moved_pointer pos 0 B_HEADER B_FORWARD)
          phbLoop fuel h (moved_pointer pos (cs / 2 * 2) B_HEADER B_END) nfb2

/-- `print_heap_blocks(0)` from `mm.c`: walk the physical blocks checking that
every free block is the next element of the free list; returns 2 on an
"empty" heap (a zero first header word). -/
def print_heap_blocks (h : Heap) (fuel : Nat) : Heap × Nat :=
  let pos := alignUp64 ((h.lo + 1) % 2 ^ 64)
  let (csh, h) := rd h pos
  if csh = 0 then (h, 2)
  else
    let (nfb, h) := rd h h.lo
    phbLoop fuel h pos nfb

/-- `mm_check` from `mm.c`: the bitwise AND of the two checkers' results. -/
def mm_check (h : Heap) (junk fuel : Nat) : Heap × Nat :=
  let (h, a) := print_heap_blocks h fuel
  let (h, b) := free_list_debug h junk fuel
  (h, Nat.land a b)

/-! ### Concrete states used by the claims -/

/-- All-zero backing memory. -/
def zeroMem : Nat → Nat := fun _ => 0

/-- A fresh (never grown) heap starting at address 16 with capacity `cap`. -/
def freshHeap (cap : Nat) : Heap := { mem := zeroMem, lo := 16, hiP := 16, cap := cap }

/-- A heap holding exactly one allocated 24-byte block (header at 24, value
25) and an empty free list (list-head word at 16 is 0). -/
def heapOneAlloc : Heap :=
  { mem := fun a => if a = 24 then 25 else 0, lo := 16, hiP := 48, cap := 100000 }

/-- A heap whose free list holds a single huge free block of total size
`2 ^ 32` (header at 24), followed by one allocated 24-byte block. -/
def heapHugeFree : Heap :=
  { mem := fun a =>
      if a = 16 then 32 else if a = 24 then 2 ^ 32 else
      if a = 24 + 2 ^ 32 then 25 else 0,
    lo := 16, hiP := 48 + 2 ^ 32, cap := 2 ^ 40 }

/-- The free list of `h`, as checked cells `(forward-slot address, size)`
starting from the slot `slot` whose stored forward pointer should lead to the
first cell, with expected backward-link value `pb`: every cell's header holds
its size with a clear flag, its backward slot points to the previous cell's
backward slot (0 for the first), cells lie inside the heap in strictly
increasing, non-adjacent address order. -/
def chainB (h : Heap) : Nat → Nat → List (Nat × Nat) → Bool
  | slot, _, [] => h.mem slot == 0
  | slot, pb, (c, s) :: rest =>
    (h.mem slot == c) && (h.mem (c - 8) == s) && (h.mem (c + 8) == pb) &&
    decide (h.lo + 16 ≤ c) && decide (c % 8 = 0) && decide (s % 8 = 0) &&
    decide (24 ≤ s) && decide (c - 8 + s ≤ h.hiP) &&
    (match rest with
     | [] => true
     | (c2, _) :: _ => decide (c - 8 + s < c2 - 8)) &&
    chainB h c (c + 8) rest

/-- The free-list predicate from the list head: `freeListB h cells` states
that walking the forward links from the list-head slot at `lo` visits exactly
`cells`. -/
def freeListB (h : Heap) (cells : List (Nat × Nat)) : Bool :=
  chainB h h.lo 0 cells

/-- Address-ordered insertion of the freed cell `(p, s)` into the free list,
merging with the predecessor and/or the successor when physically adjacent —
the list-level effect of `mm_free` on the cells of the free list. -/
def insertCoalesce : List (Nat × Nat) → Nat → Nat → List (Nat × Nat)
  | [], p, s => [(p, s)]
  | (c, sc) :: rest, p, s =>
    if p < c then
      if c - 8 = p - 8 + s then (p, s + sc) :: rest
      else (p, s) :: (c, sc) :: rest
    else
      match rest with
      | [] =>
        if p - 8 = c - 8 + sc then [(c, sc + s)]
        else [(c, sc), (p, s)]
      | (c2, sc2) :: r2 =>
        if p < c2 then
          if p - 8 = c - 8 + sc then
            if c - 8 + (sc + s) = c2 - 8 then (c, sc + s + sc2) :: r2
            else (c, sc + s) :: (c2, sc2) :: r2
          else
            if p - 8 + s = c2 - 8 then (c, sc) :: (p, s + sc2) :: r2
            else (c, sc) :: (p, s) :: (c2, sc2) :: r2
        else (c, sc) :: insertCoalesce ((c2, sc2) :: r2) p s

/-- A heap holding a single free block of total size 32 that is the heap
tail (header at 24, forward slot 32 on the free list). -/
def heapFreeTail : Heap :=
  { mem := fun a => if a = 16 then 32 else if a = 24 then 32 else 0,
    lo := 16, hiP := 56, cap := 100000 }

/-- The spec scenario behind C3: from a fresh heap, allocate 4096, allocate
16, free the 4096-byte block, then allocate 64.  `junk` is the unspecified
value consumed by the second allocation's empty-free-list path. -/
def C3run (junk : Nat) : Nat × Heap :=
  let a1 := mm_malloc (freshHeap 100000) 4096 0 50
  let a2 := mm_malloc a1.2 16 junk 50
  let h3 := mm_free a2.2 a1.1 50
  mm_malloc h3 64 0 50

/-! ### Basic lemmas about the memory model -/

theorem rd_fst (h : Heap) (a : Nat) : (rd h a).1 = h.mem a := rfl

theorem rd_snd_mem (h : Heap) (a : Nat) : (rd h a).2.mem = h.mem := rfl

theorem rd_snd_lo (h : Heap) (a : Nat) : (rd h a).2.lo = h.lo := rfl

theorem rd_snd_hiP (h : Heap) (a : Nat) : (rd h a).2.hiP = h.hiP := rfl

theorem rd_snd_cap (h : Heap) (a : Nat) : (rd h a).2.cap = h.cap := rfl

theorem rd_snd_uninit (h : Heap) (a : Nat) : (rd h a).2.uninit = h.uninit := rfl

theorem rd_snd_oobW (h : Heap) (a : Nat) : (rd h a).2.oobW = h.oobW := rfl

theorem rd_snd_fuelOut (h : Heap) (a : Nat) : (rd h a).2.fuelOut = h.fuelOut := rfl

/-- An in-bounds read leaves the state unchanged. -/
theorem rd_inB (h : Heap) (a : Nat) (hb : inB h a = true) : rd h a = (h.mem a, h) := by
  unfold rd
  rw [hb]
  simp

theorem wr_mem (h : Heap) (a v : Nat) :
    (wr h a v).mem = fun x => if x = a then v else h.mem x := rfl

theorem wr_lo (h : Heap) (a v : Nat) : (wr h a v).lo = h.lo := rfl

theorem wr_hiP (h : Heap) (a v : Nat) : (wr h a v).hiP = h.hiP := rfl

theorem wr_cap (h : Heap) (a v : Nat) : (wr h a v).cap = h.cap := rfl

theorem wr_uninit (h : Heap) (a v : Nat) : (wr h a v).uninit = h.uninit := rfl

theorem wr_oobR (h : Heap) (a v : Nat) : (wr h a v).oobR = h.oobR := rfl

theorem wr_fuelOut (h : Heap) (a v : Nat) : (wr h a v).fuelOut = h.fuelOut := rfl

theorem sbrkH_snd_uninit (h : Heap) (i : Int) : (sbrkH h i).2.uninit = h.uninit := by
  unfold sbrkH
  split <;> rfl

theorem sbrkH_snd_oobR (h : Heap) (i : Int) : (sbrkH h i).2.oobR = h.oobR := by
  unfold sbrkH
  split <;> rfl

theorem sbrkH_snd_lo (h : Heap) (i : Int) : (sbrkH h i).2.lo = h.lo := by
  unfold sbrkH
  split <;> rfl

theorem sbrkH_snd_mem (h : Heap) (i : Int) : (sbrkH h i).2.mem = h.mem := by
  unfold sbrkH
  split <;> rfl

/-- A successful `sbrk` of a non-negative amount that fits the capacity. -/
theorem sbrkH_ok (h : Heap) (n : Nat) (hcap : h.hiP - h.lo + n ≤ h.cap) :
    sbrkH h (n : Int) = (h.hiP, { h with hiP := h.hiP + n }) := by
  unfold sbrkH
  rw [if_neg]
  · simp
  · push_neg
    constructor
    · positivity
    · omega

/-- `toInt32` is the identity on values below `2 ^ 31`. -/
theorem toInt32_small (v : Nat) (hv : v < 2 ^ 31) : toInt32 v = (v : Int) := by
  unfold toInt32
  rw [Nat.mod_eq_of_lt (by omega), if_pos hv]

theorem mp_FH (x bl : Nat) : moved_pointer x bl B_FORWARD B_HEADER = x - 8 := rfl

theorem mp_F_END (x bl : Nat) : moved_pointer x bl B_FORWARD B_END = x - 8 + bl := rfl

theorem mp_FB (x bl : Nat) (hx : 8 ≤ x) : moved_pointer x bl B_FORWARD B_BACKWARD = x + 8 := by
  unfold moved_pointer B_HEADER B_END B_FORWARD B_BACKWARD
  norm_num
  omega

theorem mp_BF (x bl : Nat) (hx : 16 ≤ x) : moved_pointer x bl B_BACKWARD B_FORWARD = x - 8 := by
  unfold moved_pointer B_HEADER B_END B_FORWARD B_BACKWARD
  norm_num
  omega

theorem mp_H_PAYLOAD (x bl : Nat) : moved_pointer x bl B_HEADER B_PAYLOAD = x + 8 := rfl

theorem mp_H_F (x bl : Nat) : moved_pointer x bl B_HEADER B_FORWARD = x + 8 := rfl

theorem mp_H_B (x bl : Nat) : moved_pointer x bl B_HEADER B_BACKWARD = x + 8 + 8 := rfl

theorem mp_H_END (x bl : Nat) : moved_pointer x bl B_HEADER B_END = x + bl := rfl

theorem mp_P_H (x bl : Nat) : moved_pointer x bl B_PAYLOAD B_HEADER = x - 8 := rfl

theorem mp_P_END (x bl : Nat) : moved_pointer x bl B_PAYLOAD B_END = x - 8 + bl := rfl


/-! ### Shared proof infrastructure -/

set_option maxRecDepth 4000

set_option maxHeartbeats 1000000

theorem inB_true (h : Heap) (a : Nat) (h1 : h.lo ≤ a) (h2 : a + 8 ≤ h.hiP) :
    inB h a = true := by
  unfold inB
  simp only [decide_eq_true_eq]
  exact ⟨h1, h2⟩

theorem inB_hiP (h : Heap) : inB h h.hiP = false := by
  unfold inB
  rw [decide_eq_false_iff_not]
  rintro ⟨-, hx⟩
  omega

/-- An in-bounds write only updates the memory. -/
theorem wr_inB (h : Heap) (a v : Nat) (hb : inB h a = true) :
    wr h a v = { h with mem := fun x => if x = a then v else h.mem x } := by
  unfold wr
  rw [hb]
  simp

/-- The plain-extension case of the no-fit branch of `mm_malloc`. -/
theorem mallocNoFit_plain (h : Heap) (cur sa ns : Nat)
    (hbenign : cur - 8 + sa ≠ h.hiP)
    (hns31 : ns < 2 ^ 31) (hns8 : 8 ≤ ns)
    (hlo : h.lo ≤ h.hiP)
    (hhi : h.hiP + ns < 2 ^ 64)
    (hcap : h.hiP - h.lo + ns ≤ h.cap) :
    mallocNoFit h cur sa ns =
      (h.hiP + 8,
       { mem := fun x => if x = h.hiP then ns + 1 else h.mem x,
         lo := h.lo, hiP := h.hiP + ns, cap := h.cap,
         oobR := h.oobR, oobW := h.oobW, uninit := h.uninit, fuelOut := h.fuelOut }) := by
  have hsent : h.hiP ≠ SENTINEL := by
    unfold SENTINEL
    omega
  simp only [mallocNoFit, mp_F_END, if_neg hbenign]
  rw [Nat.mod_eq_of_lt (show ns < 2 ^ 64 by omega), toInt32_small ns (by omega)]
  rw [sbrkH_ok _ ns (by simpa using hcap)]
  simp only []
  rw [if_neg hsent]
  rw [wr_inB _ _ _ (inB_true _ _ (by simpa using hlo) (by simp; omega))]
  simp only [mp_H_PAYLOAD]

/-- The no-fit branch preserves a set `uninit` flag on every path. -/
theorem mallocNoFit_uninit (h : Heap) (cur sa ns : Nat) (hu : h.uninit = true) :
    (mallocNoFit h cur sa ns).2.uninit = true := by
  simp only [mallocNoFit, rd, wr]
  split <;>
    simp [apply_ite (fun p : Nat × Heap => p.2.uninit), apply_ite (fun s : Heap => s.uninit),
      sbrkH_snd_uninit, hu]

/-- On a non-empty heap with an empty free list, `mm_malloc` reaches the
no-fit branch with the scan cursor still at the list-head slot and `size_act`
never assigned (the `junk` argument stands for its unspecified value). -/
theorem mm_malloc_emptyDispatch (h : Heap) (size junk fuel : Nat)
    (hne : h.hiP - h.lo ≠ 0) (hhead : h.mem h.lo = 0) (hlo8 : h.lo + 8 ≤ h.hiP) :
    mm_malloc h size junk fuel =
      mallocNoFit { h with uninit := true } h.lo junk
        (alignUp64 (((if size % 2 ^ 32 < 16 then 16 else size) + 8) % 2 ^ 64)) := by
  have h1 : rd h h.lo = (0, h) := by
    rw [rd_inB h h.lo (inB_true h h.lo le_rfl hlo8), hhead]
  simp only [mm_malloc, if_neg hne, h1, ne_eq, not_true_eq_false, if_false, reduceIte]

/-- Combination of the two previous lemmas: on a non-empty heap with an empty
free list and a benign junk word, `mm_malloc` plainly extends the heap. -/
theorem mm_malloc_emptyList (h : Heap) (size junk fuel ns : Nat)
    (hns : alignUp64 (((if size % 2 ^ 32 < 16 then 16 else size) + 8) % 2 ^ 64) = ns)
    (hne : h.hiP - h.lo ≠ 0)
    (hhead : h.mem h.lo = 0)
    (hlo8 : h.lo + 8 ≤ h.hiP)
    (hbenign : h.lo - 8 + junk ≠ h.hiP)
    (hns31 : ns < 2 ^ 31) (hns8 : 8 ≤ ns)
    (hhi : h.hiP + ns < 2 ^ 64)
    (hcap : h.hiP - h.lo + ns ≤ h.cap) :
    mm_malloc h size junk fuel =
      (h.hiP + 8,
       { mem := fun x => if x = h.hiP then ns + 1 else h.mem x,
         lo := h.lo, hiP := h.hiP + ns, cap := h.cap,
         oobR := h.oobR, oobW := h.oobW, uninit := true, fuelOut := h.fuelOut }) := by
  rw [mm_malloc_emptyDispatch h size junk fuel hne hhead hlo8, hns]
  rw [mallocNoFit_plain _ _ _ _ (by simpa using hbenign) hns31 hns8
    (by simpa using (by omega : h.lo ≤ h.hiP)) (by simpa using hhi) (by simpa using hcap)]

/-- The last-block branch of `reallocRest`. -/
theorem reallocRest_tail (h : Heap)
    (ptr asked junk fuel asked_block_size current_size next_block_header : Nat)
    (htl : next_block_header = h.hiP) :
    reallocRest h ptr asked junk fuel asked_block_size current_size next_block_header =
      (ptr,
        wr (sbrkH h (toInt32 ((asked_block_size - current_size) % 2 ^ 64))).2
          (moved_pointer ptr 0 B_PAYLOAD B_HEADER) (asked_block_size + 1)) := by
  simp only [reallocRest, if_pos htl]

/-- `mm_malloc` on any non-empty heap whose free list is empty consumes the
uninitialized `size_act`. -/
theorem mm_malloc_uninit_of_empty_freelist (h : Heap) (size junk fuel : Nat)
    (hne : h.hiP - h.lo ≠ 0) (hhead : h.mem h.lo = 0) :
    (mm_malloc h size junk fuel).2.uninit = true := by
  simp only [mm_malloc, if_neg hne, rd, hhead, ne_eq, not_true_eq_false, if_false, reduceIte]
  exact mallocNoFit_uninit _ _ _ _ rfl

/-- A bitwise AND with 2 never yields the boolean 1. -/
theorem land_two_ne_one (j : Nat) : Nat.land 2 j ≠ 1 := by
  intro hc
  have h0 : (2 &&& j).testBit 0 = false := by
    rw [Nat.testBit_land]
    simp
  rw [show (2 &&& j) = Nat.land 2 j from rfl, hc] at h0
  simp at h0

theorem chainB_nil (h : Heap) (slot pb : Nat) :
    chainB h slot pb [] = true ↔ h.mem slot = 0 := by
  simp [chainB]

theorem chainB_cons (h : Heap) (slot pb c s : Nat) (rest : List (Nat × Nat)) :
    chainB h slot pb ((c, s) :: rest) = true ↔
      h.mem slot = c ∧ h.mem (c - 8) = s ∧ h.mem (c + 8) = pb ∧
      h.lo + 16 ≤ c ∧ c % 8 = 0 ∧ s % 8 = 0 ∧ 24 ≤ s ∧ c - 8 + s ≤ h.hiP ∧
      (match rest with | [] => True | (c2, _) :: _ => c - 8 + s < c2 - 8) ∧
      chainB h c (c + 8) rest = true := by
  cases rest with
  | nil => simp [chainB, and_assoc]
  | cons q r =>
    obtain ⟨c2, s2⟩ := q
    simp [chainB, and_assoc]

/-- Scanning a chain in which no block fits (every size is below `newsize`)
leaves the state unchanged, records no candidate and ends on the last cell. -/
theorem mallocScan_nofit (cells : List (Nat × Nat)) :
    ∀ (fuel : Nat) (h : Heap) (slot pb bp bs newsize c s : Nat)
      (hch : chainB h slot pb ((c, s) :: cells) = true)
      (hfit : ∀ p ∈ (c, s) :: cells, p.2 < newsize)
      (hfuel : cells.length + 1 ≤ fuel)
      (cl sl : Nat) (hlast : ((c, s) :: cells).getLast? = some (cl, sl)),
      mallocScan fuel h c newsize bp bs = (h, cl, sl, bp, bs) := by
  induction cells with
  | nil =>
    intro fuel h slot pb bp bs newsize c s hch hfit hfuel cl sl hlast
    obtain ⟨fuel, rfl⟩ : ∃ f, fuel = f + 1 := ⟨fuel - 1, by omega⟩
    rw [chainB_cons] at hch
    obtain ⟨h1, h2, h3, h4, h5, h6, h7, h8, -, h10⟩ := hch
    rw [chainB_nil] at h10
    simp only [List.getLast?_singleton, Option.some_inj, Prod.mk.injEq] at hlast
    obtain ⟨rfl, rfl⟩ := hlast
    have hs : s < newsize := hfit (c, s) (by simp)
    unfold mallocScan
    rw [mp_FH, rd_inB h (c - 8) (inB_true h (c - 8) (by omega) (by omega))]
    simp only [h2]
    rw [if_neg (by omega), if_neg (by omega)]
    rw [rd_inB h c (inB_true h c (by omega) (by omega))]
    simp only [h10, reduceIte]
  | cons q rest ih =>
    intro fuel h slot pb bp bs newsize c s hch hfit hfuel cl sl hlast
    obtain ⟨c2, s2⟩ := q
    obtain ⟨fuel, rfl⟩ : ∃ f, fuel = f + 1 := ⟨fuel - 1, by omega⟩
    rw [chainB_cons] at hch
    obtain ⟨h1, h2, h3, h4, h5, h6, h7, h8, h9, h10⟩ := hch
    have hch2 := h10
    rw [chainB_cons] at h10
    have hs : s < newsize := hfit (c, s) (by simp)
    unfold mallocScan
    rw [mp_FH, rd_inB h (c - 8) (inB_true h (c - 8) (by omega) (by omega))]
    simp only [h2]
    rw [if_neg (by omega), if_neg (by omega)]
    rw [rd_inB h c (inB_true h c (by omega) (by omega))]
    simp only [h10.1]
    rw [if_neg (by omega : ¬ (c2 = 0))]
    exact ih fuel h c (c + 8) bp bs newsize c2 s2 hch2
      (fun p hp => hfit p (List.mem_cons_of_mem _ hp)) (by simpa using hfuel) cl sl
      (by simpa using hlast)

theorem chainB_mem_facts (cells : List (Nat × Nat)) :
    ∀ (h : Heap) (slot pb : Nat), chainB h slot pb cells = true →
      ∀ p ∈ cells, h.lo + 16 ≤ p.1 ∧ p.1 % 8 = 0 ∧ p.2 % 8 = 0 ∧ 24 ≤ p.2 ∧
        p.1 - 8 + p.2 ≤ h.hiP := by
  induction cells with
  | nil =>
    intro h slot pb _ p hp
    simp at hp
  | cons q rest ih =>
    intro h slot pb hch p hp
    obtain ⟨c, s⟩ := q
    rw [chainB_cons] at hch
    rw [List.mem_cons] at hp
    rcases hp with hp | hp
    · subst hp
      exact ⟨hch.2.2.2.1, hch.2.2.2.2.1, hch.2.2.2.2.2.1, hch.2.2.2.2.2.2.1,
        hch.2.2.2.2.2.2.2.1⟩
    · exact ih h c (c + 8) hch.2.2.2.2.2.2.2.2.2 p hp

theorem chainB_last_backward (cells : List (Nat × Nat)) :
    ∀ (h : Heap) (slot pb cl sl : Nat),
      chainB h slot pb cells = true →
      cells.getLast? = some (cl, sl) →
      (pb = 0 ∨ (h.lo + 24 ≤ pb ∧ pb + 8 ≤ h.hiP)) →
      (h.mem (cl + 8) = 0 ∨ (h.lo + 24 ≤ h.mem (cl + 8) ∧ h.mem (cl + 8) + 8 ≤ h.hiP)) := by
  induction cells with
  | nil =>
    intro h slot pb cl sl _ hlast
    simp at hlast
  | cons q rest ih =>
    intro h slot pb cl sl hch hlast hpb
    obtain ⟨c, s⟩ := q
    rw [chainB_cons] at hch
    cases rest with
    | nil =>
      simp only [List.getLast?_singleton, Option.some_inj, Prod.mk.injEq] at hlast
      obtain ⟨rfl, rfl⟩ := hlast
      rw [hch.2.2.1]
      exact hpb
    | cons q2 r2 =>
      refine ih h c (c + 8) cl sl hch.2.2.2.2.2.2.2.2.2 (by simpa using hlast) ?_
      right
      constructor
      · omega
      · have h24 : 24 ≤ s := hch.2.2.2.2.2.2.1
        have hend : c - 8 + s ≤ h.hiP := hch.2.2.2.2.2.2.2.1
        have hc : h.lo + 16 ≤ c := hch.2.2.2.1
        omega

/-- On a heap whose free list is the non-empty chain `(c1, s1) :: rest` in
which no block fits, `mm_malloc` dispatches to the no-fit branch with the
cursor on the last cell and `size_act` its size. -/
theorem mm_malloc_nofit_dispatch (h : Heap) (n junk fuel ns c1 s1 cl sl : Nat)
    (rest : List (Nat × Nat))
    (hns : alignUp64 (((if n % 2 ^ 32 < 16 then 16 else n) + 8) % 2 ^ 64) = ns)
    (hch : freeListB h ((c1, s1) :: rest) = true)
    (hnofit : ∀ p ∈ (c1, s1) :: rest, p.2 < ns)
    (hfuel : rest.length + 1 ≤ fuel)
    (hlast : ((c1, s1) :: rest).getLast? = some (cl, sl)) :
    mm_malloc h n junk fuel = mallocNoFit h cl sl ns := by
  have hch' := hch
  unfold freeListB at hch'
  have hfacts := chainB_mem_facts ((c1, s1) :: rest) h h.lo 0 hch'
  have hc1 := hfacts (c1, s1) (by simp)
  have hne : h.hiP - h.lo ≠ 0 := by
    have := hc1.2.2.2.2
    have := hc1.1
    have := hc1.2.2.2.1
    omega
  have hhead : h.mem h.lo = c1 := by
    rw [chainB_cons] at hch'
    exact hch'.1
  have hd : rd h h.lo = (c1, h) := by
    rw [rd_inB h h.lo (inB_true h h.lo le_rfl (by omega))]
    rw [hhead]
  simp only [mm_malloc, if_neg hne, hd, hns]
  rw [if_pos (show (c1 : Nat) ≠ 0 by omega)]
  rw [mallocScan_nofit rest fuel h h.lo 0 0 (2 ^ 32 - 1) ns c1 s1 hch' hnofit hfuel cl sl hlast]
  simp

/-- The tail-extension case of the no-fit branch: the heap grows by exactly
`ns - sa`, the tail cell is detached (its predecessor's forward slot — or the
list head — is zeroed) and the allocated header is placed at the tail's
header. -/
theorem mallocNoFit_tail (h : Heap) (cur sa ns pb : Nat)
    (htail : cur - 8 + sa = h.hiP)
    (hpb : h.mem (cur + 8) = pb)
    (hsa : sa < ns) (hns31 : ns < 2 ^ 31)
    (hcur : h.lo + 16 ≤ cur) (hcurhi : cur + 16 ≤ h.hiP)
    (hlo8 : h.lo + 8 ≤ h.hiP)
    (hpbOK : pb = 0 ∨ (h.lo + 24 ≤ pb ∧ pb + 8 ≤ h.hiP))
    (hhi : h.hiP + ns < 2 ^ 64) :
    (h.hiP - h.lo + (ns - sa) ≤ h.cap) →
    mallocNoFit h cur sa ns =
      (cur,
       { mem := fun x =>
           if x = cur - 8 then ns + 1
           else if x = (if pb = 0 then h.lo else pb - 8) then 0
           else h.mem x,
         lo := h.lo, hiP := h.hiP + (ns - sa), cap := h.cap,
         oobR := h.oobR, oobW := h.oobW, uninit := h.uninit, fuelOut := h.fuelOut }) := by
  intro hcap
  have hsent : cur - 8 ≠ SENTINEL := by
    unfold SENTINEL
    omega
  have hmod : (ns + 2 ^ 64 - sa) % 2 ^ 64 = ns - sa := by omega
  simp only [mallocNoFit, mp_F_END, if_pos htail, hmod,
    toInt32_small (ns - sa) (by omega)]
  rw [sbrkH_ok _ (ns - sa) (by simpa using hcap)]
  simp only []
  rw [mp_FB _ _ (by omega), rd_inB _ (cur + 8)
    (inB_true _ _ (by simpa using (by omega : h.lo ≤ cur + 8)) (by simp; omega))]
  simp only [hpb]
  rcases hpbOK with hpb0 | hpbIn
  · subst hpb0
    simp only [ne_eq, not_true_eq_false, if_false, reduceIte]
    rw [wr_inB _ _ _ (inB_true _ _ (by simpa using (by omega : h.lo ≤ h.lo)) (by simp; omega))]
    simp only [mp_FH]
    rw [if_neg hsent]
    rw [wr_inB _ _ _ (inB_true _ _ (by simpa using (by omega : h.lo ≤ cur - 8)) (by simp; omega))]
    simp only [mp_H_PAYLOAD, if_pos rfl]
    rw [show cur - 8 + 8 = cur by omega]
  · have hpbne : pb ≠ 0 := by omega
    simp only [hpbne, ne_eq, not_false_eq_true, if_true, reduceIte]
    rw [rd_inB _ (cur + 8)
      (inB_true _ _ (by simpa using (by omega : h.lo ≤ cur + 8)) (by simp; omega))]
    simp only [hpb]
    rw [mp_BF _ _ (by omega)]
    rw [wr_inB _ _ _ (inB_true _ _ (by simpa using (by omega : h.lo ≤ pb - 8)) (by simp; omega))]
    simp only [mp_FH]
    rw [if_neg hsent]
    rw [wr_inB _ _ _ (inB_true _ _ (by simpa using (by omega : h.lo ≤ cur - 8)) (by simp; omega))]
    simp only [mp_H_PAYLOAD, if_neg hpbne]
    rw [show cur - 8 + 8 = cur by omega]

/-! ### Claims -/

/-- C2: the claim states that whenever the backing allocator refuses a growth
request, `allocate` returns null and leaves the heap unchanged.  The code
violates this: on the first call, `p = mem_sbrk(...) + sizeof(void * )` turns
the failure sentinel `(void * ) - 1` into 7, the subsequent alignment fix-up
moves it to 8, the `p == (void * ) - 1` check misses, a header is written at
the absolute address 8 (outside the heap, `oobW` set), and the non-null
pointer 16 is returned while the heap was never grown. -/
theorem C2_oom_first_call_returns_non_null :
    (mm_malloc (freshHeap 0) 16 0 50).1 = 16 ∧
    (mm_malloc (freshHeap 0) 16 0 50).1 ≠ 0 ∧
    (mm_malloc (freshHeap 0) 16 0 50).2.hiP = 16 ∧
    (mm_malloc (freshHeap 0) 16 0 50).2.mem 8 = 25 ∧
    (mm_malloc (freshHeap 0) 16 0 50).2.oobW = true := by decide

/-- C3 counterexample: after allocate 4096, allocate 16, free the 4096-byte
block, allocate 64, the claim expects the 64-byte allocation at the LOW end
of the freed region (header at the freed block's original header position 24,
hence payload 32).  The code instead returns payload 4064 (header 4056, the
HIGH end), and the word at 24 holds the free remainder's header 4032. -/
theorem C3_counterexample_alloc_at_high_end :
    (C3run 0).1 = 4064 ∧ (C3run 0).1 ≠ 32 ∧ (C3run 0).2.mem 24 = 4032 := by decide

/-- C3 amended: the 64-byte allocation lands at the HIGH end of the just-freed
region (header at 4056 = freed header 24 + remainder 4032, value 72 + 1), and
the remainder free block of size 4032 stays at the low end (its header at the
freed block's original header position 24) and remains the sole element of the
free list.  This holds for every value of the uninitialized word consumed by
the second allocation except the single adversarial value 4120. -/
theorem C3_amended_split_keeps_low_end_free (junk : Nat) (hj : junk ≠ 4120) :
    (C3run junk).1 = 4064 ∧ (C3run junk).2.mem 4056 = 73 ∧
    (C3run junk).2.mem 24 = 4032 ∧ (C3run junk).2.mem 16 = 32 ∧
    (C3run junk).2.mem 32 = 0 ∧ (C3run junk).2.mem 40 = 0 := by
  have hlo : (mm_malloc (freshHeap 100000) 4096 0 50).2.lo = 16 := by decide
  have hhi : (mm_malloc (freshHeap 100000) 4096 0 50).2.hiP = 4128 := by decide
  have hb : (mm_malloc (freshHeap 100000) 4096 0 50).2.lo - 8 + junk ≠
      (mm_malloc (freshHeap 100000) 4096 0 50).2.hiP := by
    rw [hlo, hhi]
    omega
  have Hlem := mm_malloc_emptyList (mm_malloc (freshHeap 100000) 4096 0 50).2 16 junk 50 24
    (by decide) (by decide) (by decide) (by decide) hb (by decide) (by decide) (by decide)
    (by decide)
  simp only [C3run]
  rw [Hlem]
  decide

/-- C3 amended witness at the concrete junk value 0. -/
theorem C3_amended_witness :
    (0 : Nat) ≠ 4120 ∧ (C3run 0).2.mem 4056 = 73 :=
  ⟨by decide, (C3_amended_split_keeps_low_end_free 0 (by decide)).2.1⟩

/-- C5: the claim states that whenever some free block fits, the block taken
is a fitting free block of minimal size.  The code initializes the best-fit
tracker to `(size_t)(pow(16, SIZE_T_SIZE) - 1) = 2 ^ 32 - 1` although block
sizes are 64-bit, so a fitting (non-exact) block of size `2 ^ 32` is never
recorded: on `heapHugeFree` (one fitting free block of size `2 ^ 32` that is
not the heap tail), `allocate(16)` ignores it, extends the heap by 24 bytes
and returns a block at the old heap end, leaving the huge block free. -/
theorem C5_bestfit_cap_skips_huge_block :
    (mm_malloc heapHugeFree 16 0 50).1 = 2 ^ 32 + 56 ∧
    (mm_malloc heapHugeFree 16 0 50).2.hiP = 2 ^ 32 + 72 ∧
    (mm_malloc heapHugeFree 16 0 50).2.mem 24 = 2 ^ 32 ∧
    (mm_malloc heapHugeFree 16 0 50).2.mem 16 = 32 := by decide

/-- C7: the claim states `check()` returns the boolean true on every
well-formed state including the empty heap.  On the empty heap
`print_heap_blocks` returns the sentinel 2 (after an out-of-heap read) and
`free_list_debug` falls off a plain `return;` (unspecified value `junk`), so
`mm_check` returns `2 & junk ∈ {0, 2}`, never the boolean 1. -/
theorem C7_mm_check_empty_heap_not_true (junk : Nat) :
    (mm_check (freshHeap 100000) junk 50).2 = Nat.land 2 junk ∧
    (mm_check (freshHeap 100000) junk 50).2 ≠ 1 ∧
    (mm_check (freshHeap 100000) junk 50).1.oobR = true ∧
    (mm_check (freshHeap 100000) junk 50).1.uninit = true := by
  refine ⟨rfl, ?_, rfl, rfl⟩
  show Nat.land 2 junk ≠ 1
  exact land_two_ne_one junk

/-- C9: for every reallocate call with non-null `ptr`, positive request and a
new aligned block size exceeding the current one, the successor header word at
`addr(header) + current_size` is dereferenced before the heap-end test; when
`ptr`'s block is the heap tail that address is `hi + 1`, outside `[lo, hi)`,
and the embedding's out-of-heap-read flag is raised. -/
theorem C9_realloc_reads_past_heap_end (h : Heap) (ptr n junk fuel cs : Nat)
    (hptr : ptr ≠ 0) (hn : n ≠ 0) (hn31 : n < 2 ^ 31)
    (hhdr : h.mem (ptr - 8) = cs + 1) (hcs : cs + 1 < 2 ^ 64)
    (hgrow : cs < alignUp64 (n + 8))
    (htail : ptr - 8 + cs = h.hiP) :
    (mm_realloc h ptr n junk fuel).2.oobR = true := by
  have hcur : (cs + 1 + (2 ^ 64 - 1)) % 2 ^ 64 = cs := by omega
  have hn8 : (n + 8) % 2 ^ 64 = n + 8 := Nat.mod_eq_of_lt (by omega)
  simp only [mm_realloc, if_neg hptr, if_neg hn, rd, mp_P_H, mp_P_END, hhdr, hcur, hn8]
  rw [if_neg (by omega : ¬ alignUp64 (n + 8) ≤ cs)]
  simp only [htail, ne_eq, not_true_eq_false, and_false, false_and, if_false, reduceIte]
  rw [reallocRest_tail _ _ _ _ _ _ _ _ (by simp [htail])]
  simp [wr, sbrkH_snd_oobR, inB_hiP]

/-- C9 witness: growing the tail block of `heapOneAlloc` raises the flag. -/
theorem C9_realloc_reads_past_heap_end_witness :
    (mm_realloc heapOneAlloc 32 40 0 50).2.oobR = true :=
  C9_realloc_reads_past_heap_end heapOneAlloc 32 40 0 50 24 (by decide) (by decide)
    (by decide) (by decide) (by decide) (by decide) (by decide)

/-- C10: on every allocate call against a non-empty heap with an empty free
list, the uninitialized local `size_act` is consumed (first conjunct), and the
choice between tail-extension and plain extension is decided by that
unspecified value: on `heapOneAlloc`, junk 40 drives the tail-extension branch
(no growth, corrupted result 16), junk 0 the plain extension (result 56,
heap grown to 72). -/
theorem C10_no_fit_uses_uninitialized_size_act :
    (∀ (h : Heap) (size junk fuel : Nat), h.hiP - h.lo ≠ 0 → h.mem h.lo = 0 →
      (mm_malloc h size junk fuel).2.uninit = true) ∧
    (mm_malloc heapOneAlloc 16 40 50).1 = 16 ∧
    (mm_malloc heapOneAlloc 16 40 50).2.hiP = 48 ∧
    (mm_malloc heapOneAlloc 16 0 50).1 = 56 ∧
    (mm_malloc heapOneAlloc 16 0 50).2.hiP = 72 :=
  ⟨fun h size junk fuel hne hhead =>
    mm_malloc_uninit_of_empty_freelist h size junk fuel hne hhead, by decide⟩

/-- C10 witness: the universal part applied to the concrete `heapOneAlloc`. -/
theorem C10_no_fit_uses_uninitialized_size_act_witness :
    (mm_malloc heapOneAlloc 24 0 50).2.uninit = true :=
  C10_no_fit_uses_uninitialized_size_act.1 heapOneAlloc 24 0 50 (by decide) (by decide)

/-- C6: on every allocate call in which no free block fits and the last free
block (the chain's last cell `(cl, sl)`) ends exactly at `hi + 1`, the heap is
extended by exactly `ns - sl` bytes (`ns` the aligned block size computed from
`n`), the tail is detached from the free list (the predecessor's forward slot
is zeroed — or the list head when the tail was first, i.e. `pb = 0`), and the
allocated block is emitted at the tail's header `cl - 8`, returning payload
`cl`. -/
theorem C6_tail_extension_exact (h : Heap) (n junk fuel ns c1 s1 cl sl pb : Nat)
    (rest : List (Nat × Nat))
    (hns : alignUp64 (((if n % 2 ^ 32 < 16 then 16 else n) + 8) % 2 ^ 64) = ns)
    (hch : freeListB h ((c1, s1) :: rest) = true)
    (hnofit : ∀ p ∈ (c1, s1) :: rest, p.2 < ns)
    (hlast : ((c1, s1) :: rest).getLast? = some (cl, sl))
    (htail : cl - 8 + sl = h.hiP)
    (hfuel : rest.length + 1 ≤ fuel)
    (hns31 : ns < 2 ^ 31)
    (hhi : h.hiP + ns < 2 ^ 64)
    (hcap : h.hiP - h.lo + (ns - sl) ≤ h.cap)
    (hpb : h.mem (cl + 8) = pb) :
    mm_malloc h n junk fuel =
      (cl,
       { mem := fun x =>
           if x = cl - 8 then ns + 1
           else if x = (if pb = 0 then h.lo else pb - 8) then 0
           else h.mem x,
         lo := h.lo, hiP := h.hiP + (ns - sl), cap := h.cap,
         oobR := h.oobR, oobW := h.oobW, uninit := h.uninit, fuelOut := h.fuelOut }) := by
  have hch' := hch
  unfold freeListB at hch'
  have hlastmem : (cl, sl) ∈ (c1, s1) :: rest := by
    obtain ⟨hne, heq⟩ := List.mem_getLast?_eq_getLast (l := (c1, s1) :: rest) (by rw [hlast]; rfl)
    rw [heq]
    exact List.getLast_mem hne
  have hfacts := chainB_mem_facts ((c1, s1) :: rest) h h.lo 0 hch' (cl, sl) hlastmem
  have hpbOK := chainB_last_backward ((c1, s1) :: rest) h h.lo 0 cl sl hch' hlast (by left; rfl)
  rw [hpb] at hpbOK
  have hc1 := chainB_mem_facts ((c1, s1) :: rest) h h.lo 0 hch' (c1, s1) (by simp)
  rw [mm_malloc_nofit_dispatch h n junk fuel ns c1 s1 cl sl rest hns hch hnofit hfuel hlast]
  exact mallocNoFit_tail h cl sl ns pb htail hpb (hnofit (cl, sl) hlastmem) hns31
    (by simpa using hfacts.1) (by have := hfacts.2.2.2; omega)
    (by have := hc1.1; have := hc1.2.2.2.2; omega) hpbOK hhi hcap

/-- C6 witness: spec scenario 4 — a single free tail of size 32, then
`allocate(2048)`: `sbrk` grows the heap by exactly 2056 - 32 = 2024 bytes, the
tail is excised (list head zeroed) and the allocation sits at its header. -/
theorem C6_tail_extension_exact_witness :
    (mm_malloc heapFreeTail 2048 0 50).1 = 32 ∧
    (mm_malloc heapFreeTail 2048 0 50).2.hiP = 2080 ∧
    (mm_malloc heapFreeTail 2048 0 50).2.mem 24 = 2057 ∧
    (mm_malloc heapFreeTail 2048 0 50).2.mem 16 = 0 := by
  rw [C6_tail_extension_exact heapFreeTail 2048 0 50 2056 32 32 32 32 0 [] (by decide) (by decide)
    (by decide) (by decide) (by decide) (by decide) (by decide) (by decide) (by decide)
    (by decide)]
  refine ⟨rfl, by decide, by decide, by decide⟩

end MM
